import Mathlib

/- Shallow embedding of the pitch model of src/src/notes.rs (ear-trainer).
   Machine integers are modelled as Nat (for u8) and Int (for i32), with the
   wrap of an `as u8` cast written explicitly as `% 256` (Euclidean mod).  The f64 values
   and f64 arithmetic of the frequency conversions are modelled as exact real
   numbers.  Rust strings are modelled as lists of characters, and fallible
   Rust functions returning Result<_, String> as Except String _. -/

deriving instance DecidableEq for Except

/-- Closed enumeration of the 12 pitch classes, notes.rs lines 6-20. -/
inductive Note where
  | C
  | CSharp
  | D
  | DSharp
  | E
  | F
  | FSharp
  | G
  | GSharp
  | A
  | ASharp
  | B
  deriving DecidableEq, Fintype

/-- A note paired with its octave, notes.rs lines 22-26.  The octave field has
Rust type u8; it is modelled as Nat, with the bound 256 stated where needed. -/
structure NoteWithOctave where
  note : Note
  octave : ℕ
  deriving DecidableEq

/-- Display string of a Note: the note_str match of the Display impl, notes.rs
lines 28-46.  Sharp variants render with a hash, never as flats. -/
def Note.note_str : Note → List Char
  | .C => ['C']
  | .CSharp => ['C', '#']
  | .D => ['D']
  | .DSharp => ['D', '#']
  | .E => ['E']
  | .F => ['F']
  | .FSharp => ['F', '#']
  | .G => ['G']
  | .GSharp => ['G', '#']
  | .A => ['A']
  | .ASharp => ['A', '#']
  | .B => ['B']

/-- Decimal digit character for d in 0..9. -/
def digit_char (d : ℕ) : Char := Char.ofNat (48 + d)

/-- Fuel-indexed helper producing the decimal digits of a natural number in
front of acc, most significant digit first. -/
def nat_decimal_aux : ℕ → ℕ → List Char → List Char
  | 0, _, acc => acc
  | fuel + 1, n, acc =>
    if n < 10 then digit_char n :: acc
    else nat_decimal_aux fuel (n / 10) (digit_char (n % 10) :: acc)

/-- Decimal rendering of a natural number: model of the Display of u8 used by
the NoteWithOctave Display impl (decimal, no sign, no leading zeros). -/
def nat_decimal (n : ℕ) : List Char := nat_decimal_aux (n + 1) n []

/-- Display of NoteWithOctave, notes.rs lines 48-52: note string immediately
followed by the octave in decimal. -/
def NoteWithOctave.display (nwo : NoteWithOctave) : List Char :=
  nwo.note.note_str ++ nat_decimal nwo.octave

/-- Note parsing: the FromStr impl for Note, notes.rs lines 54-84.  The token
is matched case-sensitively against seven naturals, five sharp spellings and
five flat spellings aliased to the equivalent sharp variant. -/
def Note.from_str (s : List Char) : Except String Note :=
  if s = ['C'] then .ok .C
  else if s = ['D'] then .ok .D
  else if s = ['E'] then .ok .E
  else if s = ['F'] then .ok .F
  else if s = ['G'] then .ok .G
  else if s = ['A'] then .ok .A
  else if s = ['B'] then .ok .B
  else if s = ['C', '#'] then .ok .CSharp
  else if s = ['D', '#'] then .ok .DSharp
  else if s = ['F', '#'] then .ok .FSharp
  else if s = ['G', '#'] then .ok .GSharp
  else if s = ['A', '#'] then .ok .ASharp
  else if s = ['D', 'b'] then .ok .CSharp
  else if s = ['E', 'b'] then .ok .DSharp
  else if s = ['G', 'b'] then .ok .FSharp
  else if s = ['A', 'b'] then .ok .GSharp
  else if s = ['B', 'b'] then .ok .ASharp
  else .error ("Invalid note: " ++ String.mk s)

/-- Checked decimal accumulation of str::parse::<u8>: multiply by ten and add
each digit, failing on a non-digit character or on overflow past 255.  The
error strings are the Display of the corresponding ParseIntError kinds. -/
def parse_u8_digits : ℕ → List Char → Except String ℕ
  | acc, [] => .ok acc
  | acc, c :: rest =>
    if c.isDigit then
      if acc * 10 + (c.toNat - 48) ≤ 255 then
        parse_u8_digits (acc * 10 + (c.toNat - 48)) rest
      else .error "number too large to fit in target type"
    else .error "invalid digit found in string"

/-- Numeric value of a decimal digit string on top of an accumulator; the
unchecked counterpart of parse_u8_digits, used to state what a digit string
parses to. -/
def digits_val : ℕ → List Char → ℕ
  | acc, [] => acc
  | acc, c :: rest => digits_val (acc * 10 + (c.toNat - 48)) rest

/-- Model of str::parse::<u8> (from_str_radix at radix 10 for an unsigned
type): non-empty input, an optional leading plus sign followed by at least one
character, then checked decimal accumulation within the u8 range. -/
def parse_u8 (s : List Char) : Except String ℕ :=
  match s with
  | [] => .error "cannot parse integer from empty string"
  | c :: rest =>
    if c = '+' then
      match rest with
      | [] => .error "invalid digit found in string"
      | _ => parse_u8_digits 0 rest
    else parse_u8_digits 0 s

/-- The tuple binding at notes.rs lines 89-92: split the input at the first
ascii digit into (note token, octave token); with no digit the whole input is
the note token and the octave token defaults to "4". -/
def split_at_first_digit (s : List Char) : List Char × List Char :=
  match s.findIdx? (fun c => c.isDigit) with
  | some pos => (s.take pos, s.drop pos)
  | none => (s, ['4'])

/-- NoteWithOctave parsing: the FromStr impl, notes.rs lines 86-99.  The note
token is parsed first, then the octave token as u8, each error propagating. -/
def NoteWithOctave.from_str (s : List Char) : Except String NoteWithOctave :=
  match Note.from_str (split_at_first_digit s).1 with
  | .error e => .error e
  | .ok note =>
    match parse_u8 (split_at_first_digit s).2 with
    | .error e => .error e
    | .ok octave => .ok ⟨note, octave⟩

/-- Fixed signed distance of each note from A within the same labelled octave:
the note_offset match inside semitones_from_a4, notes.rs lines 243-256. -/
def Note.note_offset : Note → ℤ
  | .C => -9
  | .CSharp => -8
  | .D => -7
  | .DSharp => -6
  | .E => -5
  | .F => -4
  | .FSharp => -3
  | .G => -2
  | .GSharp => -1
  | .A => 0
  | .ASharp => 1
  | .B => 2

/-- Semitone distance from A4, notes.rs lines 240-263: twelve per octave away
from octave 4, plus the note offset. -/
def Note.semitones_from_a4 (n : Note) (octave : ℕ) : ℤ :=
  let octave_offset : ℤ := ((octave : ℤ) - 4) * 12
  octave_offset + n.note_offset

/-- Forward conversion to_frequency, notes.rs lines 186-190, over the reals:
440 * 2 ^ (semitones_from_a4 / 12). -/
noncomputable def Note.to_frequency (n : Note) (octave : ℕ) : ℝ :=
  440 * (2 : ℝ) ^ ((n.semitones_from_a4 octave : ℝ) / 12)

/-- Model of f64::round: round to the nearest integer, ties away from zero. -/
noncomputable def rustRound (x : ℝ) : ℤ := if 0 ≤ x then round x else -round (-x)

/-- The rounded semitone distance from A4 computed by from_frequency at
notes.rs lines 199-200: round(12 * log2(frequency / 440)). -/
noncomputable def rounded_semitones_of (frequency : ℝ) : ℤ :=
  rustRound (12 * Real.logb 2 (frequency / 440))

/-- The octave derived by from_frequency at notes.rs line 203.  Rust division
of i32 values truncates toward zero, which is Int.tdiv. -/
def from_frequency_octave (rounded_semitones : ℤ) : ℤ :=
  4 + rounded_semitones.tdiv 12

/-- The note lookup over A-relative indices at notes.rs lines 216-230; the
none result models the unreachable panic branch. -/
def a_relative_note (note_index : ℤ) : Option Note :=
  match note_index with
  | 0 => some .A
  | 1 => some .ASharp
  | 2 => some .B
  | 3 => some .C
  | 4 => some .CSharp
  | 5 => some .D
  | 6 => some .DSharp
  | 7 => some .E
  | 8 => some .F
  | 9 => some .FSharp
  | 10 => some .G
  | 11 => some .GSharp
  | _ => none

/-- Integer tail of from_frequency after the rounding step, notes.rs lines
203-235: derive the octave with truncating division, reject octaves outside
0..10, then look the note up by the A-relative index ((r % 12) + 12) % 12
(Rust % on i32 is Int.tmod).  The final `octave as u8` cast is the wrap
modulo 256; the unreachable branch is modelled as a distinct error. -/
def Note.from_frequency_round (rounded_semitones : ℤ) : Except String NoteWithOctave :=
  let octave := from_frequency_octave rounded_semitones
  if octave < 0 ∨ 10 < octave then
    .error ("Octave " ++ toString octave ++ " is out of reasonable range (0-10)")
  else
    let note_index := (rounded_semitones.tmod 12 + 12).tmod 12
    match a_relative_note note_index with
    | some note => .ok ⟨note, ((octave % 256).toNat : ℕ)⟩
    | none => .error "internal error: entered unreachable code: Modulo 12 should only give 0-11"

/-- Inverse conversion from_frequency, notes.rs lines 193-236, over the reals:
reject non-positive frequencies, then hand the rounded semitone distance to
the integer tail. -/
noncomputable def Note.from_frequency (frequency : ℝ) : Except String NoteWithOctave :=
  if frequency ≤ 0 then .error "Frequency must be positive"
  else Note.from_frequency_round (rounded_semitones_of frequency)

/-- C-relative semitone class of a note, notes.rs lines 265-280. -/
def Note.to_semitone : Note → ℤ
  | .C => 0
  | .CSharp => 1
  | .D => 2
  | .DSharp => 3
  | .E => 4
  | .F => 5
  | .FSharp => 6
  | .G => 7
  | .GSharp => 8
  | .A => 9
  | .ASharp => 10
  | .B => 11

/-- Note from a C-relative semitone class, notes.rs lines 282-298: the u8
input is reduced modulo 12 before the lookup; none models the never-taken
default branch. -/
def Note.from_semitone (semitone : ℕ) : Option Note :=
  match semitone % 12 with
  | 0 => some .C
  | 1 => some .CSharp
  | 2 => some .D
  | 3 => some .DSharp
  | 4 => some .E
  | 5 => some .F
  | 6 => some .FSharp
  | 7 => some .G
  | 8 => some .GSharp
  | 9 => some .A
  | 10 => some .ASharp
  | 11 => some .B
  | _ => none

/-- Scale types, notes.rs lines 301-305. -/
inductive ScaleType where
  | Major
  | Minor
  deriving DecidableEq, Fintype

/-- Interval tables, notes.rs lines 340-347 (Vec<u8> modelled as List Nat). -/
def ScaleType.intervals : ScaleType → List ℕ
  | .Major => [0, 2, 4, 5, 7, 9, 11]
  | .Minor => [0, 2, 3, 5, 7, 8, 10]

/-- A scale: root plus scale type, notes.rs lines 307-311. -/
structure Scale where
  root : NoteWithOctave
  scale_type : ScaleType
  deriving DecidableEq

/-- note_at_interval, notes.rs lines 368-380: target class and octave bump
from the C-relative root class; Rust % and / on i32 are tmod and tdiv, and
each `as u8` cast wraps modulo 256. -/
def Scale.note_at_interval (scale : Scale) (semitones : ℕ) : Option NoteWithOctave :=
  let root_semitone := scale.root.note.to_semitone
  let target_semitone := (root_semitone + (semitones : ℤ)).tmod 12
  let octave_increase := (root_semitone + (semitones : ℤ)).tdiv 12
  match Note.from_semitone ((target_semitone % 256).toNat) with
  | some target_note =>
    some ⟨target_note, ((((scale.root.octave : ℤ) + octave_increase) % 256).toNat : ℕ)⟩
  | none => none

/-- Scale.notes, notes.rs lines 354-365: the for loop pushing each Some result
of note_at_interval is List.filterMap over the interval table. -/
def Scale.notes (scale : Scale) : List NoteWithOctave :=
  scale.scale_type.intervals.filterMap scale.note_at_interval

/-- Values representable by the u8 octave parameter of Note.to_frequency
(notes.rs line 186): the non-negative integers below 256. -/
def octave_param_u8 : Set ℤ := {z : ℤ | 0 ≤ z ∧ z < 256}

/-- Formula side of claim C8, with the u8 wrap made explicit: degree at a
given interval has pitch class (root class + interval) mod 12 and octave
(root octave + (root class + interval) / 12) mod 256. -/
def scale_degree_formula (root : NoteWithOctave) (interval : ℕ) : Option NoteWithOctave :=
  (Note.from_semitone ((root.note.to_semitone.toNat + interval) % 12)).map
    (fun m => ⟨m, (root.octave + (root.note.to_semitone.toNat + interval) / 12) % 256⟩)

/- Helper lemmas bridging Rust truncating division and modulus (Int.tdiv,
   Int.tmod) to Euclidean division, and the exact-real facts used to reduce
   the frequency round trip to integer computation. -/

lemma tdiv_twelve_spec (r : ℤ) :
    (0 ≤ r → r.tdiv 12 = r / 12) ∧ (r < 0 → r.tdiv 12 = -((-r) / 12)) := by
  constructor
  · intro h
    exact Int.tdiv_eq_ediv h (by norm_num)
  · intro h
    have h1 : r.tdiv 12 = -((-r).tdiv 12) := by
      conv_lhs => rw [← neg_neg r]
      rw [Int.neg_tdiv]
    rw [h1, Int.tdiv_eq_ediv (by omega) (by norm_num)]

lemma note_index_eq_emod (r : ℤ) : (r.tmod 12 + 12).tmod 12 = r % 12 := by
  obtain ⟨ha, hb⟩ := tdiv_twelve_spec r
  have hm : r.tmod 12 = r - 12 * r.tdiv 12 := Int.tmod_def r 12
  have hnn : 0 ≤ r.tmod 12 + 12 := by omega
  rw [Int.tmod_eq_emod hnn (by norm_num)]
  omega

lemma a_relative_note_isSome (i : ℤ) (h0 : 0 ≤ i) (h1 : i < 12) :
    ∃ m, a_relative_note i = some m := by
  interval_cases i <;> exact ⟨_, rfl⟩

lemma to_frequency_pos (n : Note) (o : ℕ) : 0 < n.to_frequency o := by
  unfold Note.to_frequency
  positivity

lemma rustRound_intCast (z : ℤ) : rustRound (z : ℝ) = z := by
  unfold rustRound
  split
  · exact round_intCast z
  · rw [← Int.cast_neg, round_intCast, neg_neg]

lemma rounded_semitones_to_frequency (n : Note) (o : ℕ) :
    rounded_semitones_of (n.to_frequency o) = n.semitones_from_a4 o := by
  unfold rounded_semitones_of Note.to_frequency
  rw [mul_comm (440 : ℝ), mul_div_assoc, div_self (by norm_num : (440:ℝ) ≠ 0), mul_one,
    Real.logb_rpow (by norm_num) (by norm_num)]
  have h12 : (12 : ℝ) * ((n.semitones_from_a4 o : ℝ) / 12) = (n.semitones_from_a4 o : ℝ) := by
    field_simp
  rw [h12, rustRound_intCast]

lemma from_frequency_to_frequency (n : Note) (o : ℕ) :
    Note.from_frequency (n.to_frequency o) = Note.from_frequency_round (n.semitones_from_a4 o) := by
  unfold Note.from_frequency
  rw [if_neg (not_le.2 (to_frequency_pos n o)), rounded_semitones_to_frequency]

lemma octave_message_ne (x : String) :
    ("Octave " ++ x ++ " is out of reasonable range (0-10)") ≠ "Frequency must be positive" := by
  intro h
  have hd := congrArg String.data h
  rw [String.data_append, String.data_append] at hd
  have h1 : "Octave ".data = 'O' :: "ctave ".data := rfl
  have h2 : "Frequency must be positive".data = 'F' :: "requency must be positive".data := rfl
  rw [h1, h2] at hd
  simp only [List.cons_append] at hd
  injection hd with h3 h4
  exact absurd h3 (by decide)

lemma from_frequency_round_cases (r : ℤ) :
    (from_frequency_octave r < 0 ∨ 10 < from_frequency_octave r →
      Note.from_frequency_round r =
        .error ("Octave " ++ toString (from_frequency_octave r) ++ " is out of reasonable range (0-10)")) ∧
    (0 ≤ from_frequency_octave r → from_frequency_octave r ≤ 10 →
      ∃ n : Note, Note.from_frequency_round r = .ok ⟨n, (from_frequency_octave r).toNat⟩) := by
  constructor
  · intro h
    simp only [Note.from_frequency_round]
    rw [if_pos h]
  · intro h1 h2
    simp only [Note.from_frequency_round]
    rw [if_neg (by omega : ¬(from_frequency_octave r < 0 ∨ 10 < from_frequency_octave r))]
    rw [note_index_eq_emod]
    obtain ⟨m, hm⟩ := a_relative_note_isSome (r % 12)
      (Int.emod_nonneg r (by norm_num)) (Int.emod_lt_of_pos r (by norm_num))
    rw [hm]
    refine ⟨m, ?_⟩
    have he : from_frequency_octave r % 256 = from_frequency_octave r :=
      Int.emod_eq_of_lt h1 (by omega)
    rw [he]

lemma from_frequency_round_ok_octave (r : ℤ) (nwo : NoteWithOctave)
    (h : Note.from_frequency_round r = .ok nwo) :
    (nwo.octave : ℤ) = from_frequency_octave r ∧
    0 ≤ from_frequency_octave r ∧ from_frequency_octave r ≤ 10 := by
  by_cases hb : from_frequency_octave r < 0 ∨ 10 < from_frequency_octave r
  · rw [(from_frequency_round_cases r).1 hb] at h
    exact absurd h (by simp)
  · push_neg at hb
    obtain ⟨n, hn⟩ := (from_frequency_round_cases r).2 hb.1 hb.2
    rw [hn] at h
    injection h with h2
    rw [← h2]
    refine ⟨?_, hb.1, hb.2⟩
    show (((from_frequency_octave r).toNat : ℕ) : ℤ) = from_frequency_octave r
    omega

/-- C1: the claimed round trip from_frequency(to_frequency(N, O)) = Ok(N, O)
fails on the code.  At N = C, O = 5 (frequency 440 * 2^(3/12), about 523.25
Hz) the code returns Ok(C, 4): the truncating division in the octave
derivation drops the octave for notes C..G# above A4, contradicting the
claimed round trip, the doc comment of from_frequency (closest note and
octave) and the intent of the round-trip test. -/
theorem C1_round_trip_fails_at_C5 :
    Note.from_frequency (Note.to_frequency Note.C 5) = .ok ⟨Note.C, 4⟩ ∧
    (⟨Note.C, 4⟩ : NoteWithOctave) ≠ ⟨Note.C, 5⟩ := by
  constructor
  · rw [from_frequency_to_frequency]
    decide
  · decide

/-- C2 counterexample: the claim says the derived octave is
4 + floor(rounded / 12) with flooring semantics for negative values.  At the
frequency of A sharp 3 the rounded semitone count is -11; the code derives
octave 4 (truncation toward zero) while 4 + floor(-11 / 12) = 3. -/
theorem C2_counterexample :
    Note.semitones_from_a4 Note.ASharp 3 = -11 ∧
    Note.from_frequency (Note.to_frequency Note.ASharp 3) = .ok ⟨Note.ASharp, 4⟩ ∧
    4 + Int.fdiv (-11) 12 = 3 ∧ ((4 : ℤ) ≠ 3) := by
  refine ⟨by decide, ?_, by decide, by decide⟩
  rw [from_frequency_to_frequency]
  decide

/-- C2 amended: for every positive frequency accepted by from_frequency, the
derived octave is 4 + rounded / 12 with Rust truncating (toward zero)
division, and truncating division agrees with the claimed flooring division
exactly when the rounded semitone count is non-negative or divisible by 12. -/
theorem C2_truncating_octave : ∀ (f : ℝ), 0 < f → ∀ nwo : NoteWithOctave,
    Note.from_frequency f = .ok nwo →
    ((nwo.octave : ℤ) = 4 + (rounded_semitones_of f).tdiv 12 ∧
     ((rounded_semitones_of f).tdiv 12 = (rounded_semitones_of f).fdiv 12 ↔
        0 ≤ rounded_semitones_of f ∨ (12 : ℤ) ∣ rounded_semitones_of f)) := by
  intro f hf nwo h
  unfold Note.from_frequency at h
  rw [if_neg (not_le.2 hf)] at h
  have h2 := from_frequency_round_ok_octave _ _ h
  constructor
  · exact h2.1
  · obtain ⟨ha, hb⟩ := tdiv_twelve_spec (rounded_semitones_of f)
    have hfd : (rounded_semitones_of f).fdiv 12 = rounded_semitones_of f / 12 :=
      Int.fdiv_eq_ediv _ (by norm_num)
    constructor <;> intro hc <;> omega

/-- C2 witness: the amended statement instantiated at the frequency of
A sharp 3 (rounded semitone count -11, derived octave 4). -/
theorem C2_truncating_octave_witness :
    (((⟨Note.ASharp, 4⟩ : NoteWithOctave).octave : ℤ) =
        4 + (rounded_semitones_of (Note.to_frequency Note.ASharp 3)).tdiv 12 ∧
     ((rounded_semitones_of (Note.to_frequency Note.ASharp 3)).tdiv 12 =
          (rounded_semitones_of (Note.to_frequency Note.ASharp 3)).fdiv 12 ↔
        0 ≤ rounded_semitones_of (Note.to_frequency Note.ASharp 3) ∨
          (12 : ℤ) ∣ rounded_semitones_of (Note.to_frequency Note.ASharp 3))) :=
  C2_truncating_octave _ (to_frequency_pos Note.ASharp 3) ⟨Note.ASharp, 4⟩
    (by rw [from_frequency_to_frequency]; decide)

/-- C3 counterexample: the claim says to_frequency is defined for every
integer octave including negative ones, but the octave parameter has Rust
type u8, whose value set excludes -1; the function itself is fine on its
actual domain, for instance A4 maps to 440 Hz. -/
theorem C3_counterexample :
    (-1 : ℤ) ∉ octave_param_u8 ∧ Note.to_frequency Note.A 4 = 440 := by
  constructor
  · intro h
    have h1 : (0 : ℤ) ≤ -1 := h.1
    omega
  · have h0 : Note.semitones_from_a4 Note.A 4 = 0 := by decide
    unfold Note.to_frequency
    rw [h0]
    norm_num

/-- C3 amended: to_frequency is total on the values of its u8 octave
parameter (0..255): every such octave is in the parameter range, the result
is a positive frequency (no failure mode, no bound check), and it equals
440 * 2 ^ (((octave - 4) * 12 + note_offset) / 12). -/
theorem C3_u8_octave_domain : ∀ (n : Note) (o : ℕ), o < 256 →
    ((o : ℤ) ∈ octave_param_u8 ∧
     0 < Note.to_frequency n o ∧
     Note.to_frequency n o =
       440 * (2 : ℝ) ^ (((((o : ℤ) - 4) * 12 + n.note_offset : ℤ) : ℝ) / 12)) := by
  intro n o ho
  refine ⟨?_, to_frequency_pos n o, ?_⟩
  · show (0 : ℤ) ≤ (o : ℤ) ∧ (o : ℤ) < 256
    omega
  · rfl

/-- C3 witness: the amended statement instantiated at A, octave 4. -/
theorem C3_u8_octave_domain_witness :
    (((4 : ℕ) : ℤ) ∈ octave_param_u8 ∧
     0 < Note.to_frequency Note.A 4 ∧
     Note.to_frequency Note.A 4 =
       440 * (2 : ℝ) ^ ((((((4 : ℕ) : ℤ) - 4) * 12 + Note.note_offset Note.A : ℤ) : ℝ) / 12)) :=
  C3_u8_octave_domain Note.A 4 (by norm_num)

/-- C4: from_frequency returns the InvalidFrequency error exactly when the
input is non-positive; for positive input it returns the OutOfRange error
exactly when the derived octave 4 + rounded/12 falls outside 0..10, and
otherwise succeeds with some note at that octave. -/
theorem C4_error_conditions : ∀ f : ℝ,
    (Note.from_frequency f = .error "Frequency must be positive" ↔ f ≤ 0) ∧
    (0 < f →
      (Note.from_frequency f =
          .error ("Octave " ++ toString (from_frequency_octave (rounded_semitones_of f)) ++
            " is out of reasonable range (0-10)") ↔
        (from_frequency_octave (rounded_semitones_of f) < 0 ∨
          10 < from_frequency_octave (rounded_semitones_of f)))) ∧
    (0 < f → 0 ≤ from_frequency_octave (rounded_semitones_of f) →
      from_frequency_octave (rounded_semitones_of f) ≤ 10 →
      ∃ n : Note,
        Note.from_frequency f = .ok ⟨n, (from_frequency_octave (rounded_semitones_of f)).toNat⟩) := by
  intro f
  refine ⟨⟨?_, ?_⟩, ?_, ?_⟩
  · intro h
    by_contra hpos
    push_neg at hpos
    unfold Note.from_frequency at h
    rw [if_neg (not_le.2 hpos)] at h
    rcases le_or_lt 0 (from_frequency_octave (rounded_semitones_of f)) with h1 | h1
    · rcases le_or_lt (from_frequency_octave (rounded_semitones_of f)) 10 with h2 | h2
      · obtain ⟨n, hn⟩ := (from_frequency_round_cases (rounded_semitones_of f)).2 h1 h2
        rw [hn] at h
        exact Except.noConfusion h
      · rw [(from_frequency_round_cases (rounded_semitones_of f)).1 (Or.inr h2)] at h
        injection h with h3
        exact octave_message_ne _ h3
    · rw [(from_frequency_round_cases (rounded_semitones_of f)).1 (Or.inl h1)] at h
      injection h with h3
      exact octave_message_ne _ h3
  · intro h
    unfold Note.from_frequency
    rw [if_pos h]
  · intro hf
    unfold Note.from_frequency
    rw [if_neg (not_le.2 hf)]
    constructor
    · intro h
      by_contra hc
      push_neg at hc
      obtain ⟨n, hn⟩ := (from_frequency_round_cases (rounded_semitones_of f)).2
        (by omega) (by omega)
      rw [hn] at h
      exact Except.noConfusion h
    · intro h
      exact (from_frequency_round_cases (rounded_semitones_of f)).1 h
  · intro hf h1 h2
    unfold Note.from_frequency
    rw [if_neg (not_le.2 hf)]
    exact (from_frequency_round_cases (rounded_semitones_of f)).2 h1 h2

lemma rounded_semitones_440 : rounded_semitones_of 440 = 0 := by
  unfold rounded_semitones_of
  have h1 : (440 : ℝ) / 440 = 1 := by norm_num
  rw [h1, Real.logb_one, mul_zero]
  unfold rustRound
  rw [if_pos le_rfl, round_zero]

/-- C4 witness: the success branch instantiated at 440 Hz, where the rounded
semitone count is 0 and the derived octave is 4. -/
theorem C4_error_conditions_witness :
    ∃ n : Note,
      Note.from_frequency 440 =
        .ok ⟨n, (from_frequency_octave (rounded_semitones_of 440)).toNat⟩ :=
  (C4_error_conditions 440).2.2 (by norm_num)
    (by rw [rounded_semitones_440]; decide) (by rw [rounded_semitones_440]; decide)

/- Helper lemmas about the string parsers. -/

/-- The 17 recognized note spellings of the FromStr impl for Note (claim C6
context): seven naturals, five sharps, five flats. -/
def note_tokens : List (List Char) :=
  [['C'], ['D'], ['E'], ['F'], ['G'], ['A'], ['B'],
   ['C', '#'], ['D', '#'], ['F', '#'], ['G', '#'], ['A', '#'],
   ['D', 'b'], ['E', 'b'], ['G', 'b'], ['A', 'b'], ['B', 'b']]

lemma note_tokens_no_digit : ∀ t ∈ note_tokens, ∀ c ∈ t, c.isDigit = false := by decide

lemma split_no_digit (s : List Char) (h : ∀ c ∈ s, c.isDigit = false) :
    split_at_first_digit s = (s, ['4']) := by
  unfold split_at_first_digit
  rw [List.findIdx?_eq_none_iff.2 h]

lemma split_append_digit (t : List Char) (ht : ∀ c ∈ t, c.isDigit = false)
    (d : Char) (hd : d.isDigit = true) (rest : List Char) :
    split_at_first_digit (t ++ d :: rest) = (t, d :: rest) := by
  unfold split_at_first_digit
  have hf : (t ++ d :: rest).findIdx? (fun c => c.isDigit) = some t.length := by
    rw [List.findIdx?_append, List.findIdx?_eq_none_iff.2 ht]
    simp [List.findIdx?_cons, hd]
  rw [hf]
  show ((t ++ d :: rest).take t.length, (t ++ d :: rest).drop t.length) = (t, d :: rest)
  rw [List.take_left, List.drop_left]

lemma digits_val_ge (ds : List Char) : ∀ acc : ℕ, acc ≤ digits_val acc ds := by
  induction ds with
  | nil => intro acc; exact le_of_eq rfl
  | cons c rest ih =>
    intro acc
    have h1 : acc ≤ acc * 10 + (c.toNat - 48) := by omega
    exact le_trans h1 (ih _)

lemma parse_u8_digits_ok (ds : List Char) : ∀ acc : ℕ, (∀ c ∈ ds, c.isDigit = true) →
    digits_val acc ds ≤ 255 → parse_u8_digits acc ds = .ok (digits_val acc ds) := by
  induction ds with
  | nil => intro acc h hle; rfl
  | cons c rest ih =>
    intro acc h hle
    have hc : c.isDigit = true := h c (by simp)
    have hstep : digits_val acc (c :: rest) = digits_val (acc * 10 + (c.toNat - 48)) rest := rfl
    have hrest : digits_val (acc * 10 + (c.toNat - 48)) rest ≤ 255 := hstep ▸ hle
    have hbound : acc * 10 + (c.toNat - 48) ≤ 255 := le_trans (digits_val_ge _ _) hrest
    rw [hstep]
    show (if c.isDigit then
        if acc * 10 + (c.toNat - 48) ≤ 255 then parse_u8_digits (acc * 10 + (c.toNat - 48)) rest
        else .error "number too large to fit in target type"
      else .error "invalid digit found in string") = _
    rw [if_pos hc, if_pos hbound]
    exact ih _ (fun x hx => h x (by simp [hx])) hrest

lemma parse_u8_digits_overflow (ds : List Char) : ∀ acc : ℕ, (∀ c ∈ ds, c.isDigit = true) →
    acc ≤ 255 → 255 < digits_val acc ds →
    parse_u8_digits acc ds = .error "number too large to fit in target type" := by
  induction ds with
  | nil =>
    intro acc h hacc hgt
    have he : digits_val acc [] = acc := rfl
    omega
  | cons c rest ih =>
    intro acc h hacc hgt
    have hc : c.isDigit = true := h c (by simp)
    have hstep : digits_val acc (c :: rest) = digits_val (acc * 10 + (c.toNat - 48)) rest := rfl
    show (if c.isDigit then
        if acc * 10 + (c.toNat - 48) ≤ 255 then parse_u8_digits (acc * 10 + (c.toNat - 48)) rest
        else .error "number too large to fit in target type"
      else .error "invalid digit found in string") = _
    rw [if_pos hc]
    by_cases hb : acc * 10 + (c.toNat - 48) ≤ 255
    · rw [if_pos hb]
      exact ih _ (fun x hx => h x (by simp [hx])) hb (hstep ▸ hgt)
    · rw [if_neg hb]

lemma parse_u8_digits_ok_val (ds : List Char) : ∀ (acc v : ℕ),
    parse_u8_digits acc ds = .ok v → v = digits_val acc ds := by
  induction ds with
  | nil =>
    intro acc v h
    have h2 : (Except.ok acc : Except String ℕ) = .ok v := h
    injection h2 with h3
    exact h3.symm
  | cons c rest ih =>
    intro acc v h
    show v = digits_val (acc * 10 + (c.toNat - 48)) rest
    by_cases hc : c.isDigit
    · by_cases hb : acc * 10 + (c.toNat - 48) ≤ 255
      · refine ih _ _ ?_
        show parse_u8_digits (acc * 10 + (c.toNat - 48)) rest = .ok v
        rw [← h]
        show _ = (if c.isDigit then
            if acc * 10 + (c.toNat - 48) ≤ 255 then parse_u8_digits (acc * 10 + (c.toNat - 48)) rest
            else .error "number too large to fit in target type"
          else .error "invalid digit found in string")
        rw [if_pos hc, if_pos hb]
      · exfalso
        have he : parse_u8_digits acc (c :: rest) =
            .error "number too large to fit in target type" := by
          show (if c.isDigit then
              if acc * 10 + (c.toNat - 48) ≤ 255 then parse_u8_digits (acc * 10 + (c.toNat - 48)) rest
              else .error "number too large to fit in target type"
            else .error "invalid digit found in string") = _
          rw [if_pos hc, if_neg hb]
        rw [he] at h
        exact Except.noConfusion h
    · exfalso
      have he : parse_u8_digits acc (c :: rest) = .error "invalid digit found in string" := by
        show (if c.isDigit then
            if acc * 10 + (c.toNat - 48) ≤ 255 then parse_u8_digits (acc * 10 + (c.toNat - 48)) rest
            else .error "number too large to fit in target type"
          else .error "invalid digit found in string") = _
        rw [if_neg hc]
      rw [he] at h
      exact Except.noConfusion h

lemma parse_u8_digits_err_or_ok (ds : List Char) : ∀ acc : ℕ,
    (∃ v, parse_u8_digits acc ds = .ok v) ∨
    parse_u8_digits acc ds = .error "invalid digit found in string" ∨
    parse_u8_digits acc ds = .error "number too large to fit in target type" := by
  induction ds with
  | nil => exact fun acc => Or.inl ⟨acc, rfl⟩
  | cons c rest ih =>
    intro acc
    by_cases hc : c.isDigit
    · by_cases hb : acc * 10 + (c.toNat - 48) ≤ 255
      · have he : parse_u8_digits acc (c :: rest) =
            parse_u8_digits (acc * 10 + (c.toNat - 48)) rest := by
          show (if c.isDigit then
              if acc * 10 + (c.toNat - 48) ≤ 255 then parse_u8_digits (acc * 10 + (c.toNat - 48)) rest
              else .error "number too large to fit in target type"
            else .error "invalid digit found in string") = _
          rw [if_pos hc, if_pos hb]
        rw [he]
        exact ih _
      · refine Or.inr (Or.inr ?_)
        show (if c.isDigit then
            if acc * 10 + (c.toNat - 48) ≤ 255 then parse_u8_digits (acc * 10 + (c.toNat - 48)) rest
            else .error "number too large to fit in target type"
          else .error "invalid digit found in string") = _
        rw [if_pos hc, if_neg hb]
    · refine Or.inr (Or.inl ?_)
      show (if c.isDigit then
          if acc * 10 + (c.toNat - 48) ≤ 255 then parse_u8_digits (acc * 10 + (c.toNat - 48)) rest
          else .error "number too large to fit in target type"
        else .error "invalid digit found in string") = _
      rw [if_neg hc]

lemma parse_u8_digit_head (d : Char) (hd : d.isDigit = true) (rest : List Char) :
    parse_u8 (d :: rest) = parse_u8_digits 0 (d :: rest) := by
  have hne : ¬(d = '+') := by
    intro he
    rw [he] at hd
    exact absurd hd (by decide)
  show (if d = '+' then _ else parse_u8_digits 0 (d :: rest)) = _
  rw [if_neg hne]

/-- C5: when the input contains no ascii digit, the whole input is the note
token and the octave defaults to 4; in particular parsing "C" yields C4. -/
theorem C5_octave_defaults_to_4 :
    (∀ s : List Char, (∀ c ∈ s, c.isDigit = false) →
      NoteWithOctave.from_str s = (Note.from_str s).map (fun n => (⟨n, 4⟩ : NoteWithOctave))) ∧
    NoteWithOctave.from_str ['C'] = .ok ⟨Note.C, 4⟩ := by
  constructor
  · intro s h
    unfold NoteWithOctave.from_str
    rw [split_no_digit s h]
    show ((match Note.from_str s with
      | Except.error e => Except.error e
      | Except.ok note =>
        match parse_u8 ['4'] with
        | Except.error e => Except.error e
        | Except.ok octave => Except.ok ⟨note, octave⟩ : Except String NoteWithOctave)) = _
    cases hN : Note.from_str s with
    | error e => rfl
    | ok n => rfl
  · decide

/-- C5 witness: the no-digit branch instantiated at the input "C". -/
theorem C5_octave_defaults_to_4_witness :
    NoteWithOctave.from_str ['C'] =
      (Note.from_str ['C']).map (fun n => (⟨n, 4⟩ : NoteWithOctave)) :=
  C5_octave_defaults_to_4.1 ['C'] (by decide)

/-- C6 counterexample: the claim accepts octave substrings of any magnitude,
but the octave is parsed as u8.  For the input "C256" the note token is
recognized and the octave substring is the non-negative integer 256, yet
parsing fails with the overflow error. -/
theorem C6_counterexample :
    Note.from_str ['C'] = .ok Note.C ∧
    digits_val 0 ['2', '5', '6'] = 256 ∧
    NoteWithOctave.from_str ['C', '2', '5', '6'] =
      .error "number too large to fit in target type" := by
  decide

/-- C6 amended: for an input made of a recognized note token followed by an
octave substring starting with a digit, parsing succeeds with the substring
value exactly when the substring is all digits and its value fits in u8
(at most 255); an all-digit substring above 255 gives the overflow error,
and in every case the result is either that success or an octave parse
error (invalid digit or overflow). -/
theorem C6_octave_is_u8 : ∀ t ∈ note_tokens, ∀ n : Note, Note.from_str t = .ok n →
    ∀ (d : Char) (rest : List Char), d.isDigit = true →
    ((∀ c ∈ rest, c.isDigit = true) → digits_val 0 (d :: rest) ≤ 255 →
      NoteWithOctave.from_str (t ++ d :: rest) = .ok ⟨n, digits_val 0 (d :: rest)⟩) ∧
    ((∀ c ∈ rest, c.isDigit = true) → 255 < digits_val 0 (d :: rest) →
      NoteWithOctave.from_str (t ++ d :: rest) =
        .error "number too large to fit in target type") ∧
    (NoteWithOctave.from_str (t ++ d :: rest) = .ok ⟨n, digits_val 0 (d :: rest)⟩ ∨
      ∃ e, NoteWithOctave.from_str (t ++ d :: rest) = .error e ∧
        (e = "invalid digit found in string" ∨
         e = "number too large to fit in target type")) := by
  intro t ht n hok d rest hd
  have hnd : ∀ c ∈ t, c.isDigit = false := note_tokens_no_digit t ht
  have hsplit := split_append_digit t hnd d hd rest
  have hp : parse_u8 (d :: rest) = parse_u8_digits 0 (d :: rest) :=
    parse_u8_digit_head d hd rest
  have hbase : ∀ r : Except String ℕ, parse_u8_digits 0 (d :: rest) = r →
      NoteWithOctave.from_str (t ++ d :: rest) =
        (match r with | .error e => .error e | .ok octave => .ok ⟨n, octave⟩) := by
    intro r hr
    unfold NoteWithOctave.from_str
    rw [hsplit]
    show ((match Note.from_str t with
      | Except.error e => Except.error e
      | Except.ok note =>
        match parse_u8 (d :: rest) with
        | Except.error e => Except.error e
        | Except.ok octave => Except.ok ⟨note, octave⟩ : Except String NoteWithOctave)) = _
    rw [hok, hp, hr]
  have hcons : ∀ (hall : ∀ c ∈ rest, c.isDigit = true), ∀ c ∈ d :: rest, c.isDigit = true := by
    intro hall c hc
    rcases List.mem_cons.1 hc with h | h
    · rw [h]; exact hd
    · exact hall c h
  refine ⟨?_, ?_, ?_⟩
  · intro hall hle
    exact hbase _ (parse_u8_digits_ok (d :: rest) 0 (hcons hall) hle)
  · intro hall hgt
    exact hbase _ (parse_u8_digits_overflow (d :: rest) 0 (hcons hall) (by omega) hgt)
  · rcases parse_u8_digits_err_or_ok (d :: rest) 0 with ⟨v, hv⟩ | he | he
    · left
      have hval := parse_u8_digits_ok_val (d :: rest) 0 v hv
      rw [← hval]
      exact hbase _ hv
    · exact Or.inr ⟨_, hbase _ he, Or.inl rfl⟩
    · exact Or.inr ⟨_, hbase _ he, Or.inr rfl⟩

/-- C6 witness: the success branch instantiated at the input "C7". -/
theorem C6_octave_is_u8_witness :
    NoteWithOctave.from_str (['C'] ++ '7' :: []) =
      .ok ⟨Note.C, digits_val 0 ('7' :: [])⟩ :=
  (C6_octave_is_u8 ['C'] (by decide) Note.C (by decide) '7' [] (by decide)).1
    (by decide) (by decide)

/-- C7: each flat spelling Db, Eb, Gb, Ab, Bb parses to the same Note as the
corresponding sharp spelling (and "Db4" parses to the same NoteWithOctave as
"C#4"), while every letter plus accidental combination that is not a
recognized spelling, in particular "Cb" and "B#", is rejected with the
invalid-note error. -/
theorem C7_enharmonic_aliases :
    (Note.from_str ['D', 'b'] = Note.from_str ['C', '#'] ∧
     Note.from_str ['E', 'b'] = Note.from_str ['D', '#'] ∧
     Note.from_str ['G', 'b'] = Note.from_str ['F', '#'] ∧
     Note.from_str ['A', 'b'] = Note.from_str ['G', '#'] ∧
     Note.from_str ['B', 'b'] = Note.from_str ['A', '#']) ∧
    NoteWithOctave.from_str ['D', 'b', '4'] = NoteWithOctave.from_str ['C', '#', '4'] ∧
    NoteWithOctave.from_str ['C', 'b'] = .error "Invalid note: Cb" ∧
    NoteWithOctave.from_str ['B', '#'] = .error "Invalid note: B#" ∧
    (['A', 'B', 'C', 'D', 'E', 'F', 'G'].all fun l => ['#', 'b'].all fun a =>
      decide ([l, a] ∈ note_tokens) ||
        decide (Note.from_str [l, a] = .error ("Invalid note: " ++ String.mk [l, a]))) = true := by
  decide

lemma from_semitone_mod (s : ℕ) : Note.from_semitone s = Note.from_semitone (s % 12) := by
  unfold Note.from_semitone
  rw [Nat.mod_mod_of_dvd s (dvd_refl 12)]

/-- C9: from_semitone reduces its input modulo 12 before the lookup and never
returns none, and from_semitone 12 equals from_semitone 0. -/
theorem C9_from_semitone_total :
    (∀ s : ℕ, (∃ n, Note.from_semitone s = some n) ∧
      Note.from_semitone s = Note.from_semitone (s % 12)) ∧
    Note.from_semitone 12 = Note.from_semitone 0 := by
  constructor
  · intro s
    refine ⟨?_, from_semitone_mod s⟩
    rw [from_semitone_mod s]
    obtain ⟨m, hm⟩ : ∃ m, s % 12 = m := ⟨_, rfl⟩
    rw [hm]
    have hlt : m < 12 := by omega
    interval_cases m <;> exact ⟨_, rfl⟩
  · decide

lemma from_semitone_exists (s : ℕ) : ∃ n, Note.from_semitone s = some n := by
  rw [from_semitone_mod s]
  obtain ⟨m, hm⟩ : ∃ m, s % 12 = m := ⟨_, rfl⟩
  rw [hm]
  have hlt : m < 12 := by omega
  interval_cases m <;> exact ⟨_, rfl⟩

lemma note_at_interval_eq_formula (root : NoteWithOctave) (st : ScaleType) (k : ℕ) :
    Scale.note_at_interval ⟨root, st⟩ k = scale_degree_formula root k := by
  obtain ⟨nt, o⟩ := root
  have hc : 0 ≤ nt.to_semitone ∧ nt.to_semitone ≤ 11 := by
    cases nt <;> exact ⟨by decide, by decide⟩
  simp only [Scale.note_at_interval, scale_degree_formula]
  have ht : (nt.to_semitone + (k : ℤ)).tmod 12 = (((nt.to_semitone.toNat + k) % 12 : ℕ) : ℤ) := by
    rw [Int.tmod_eq_emod (by omega) (by norm_num)]
    omega
  have harg : (((nt.to_semitone + (k : ℤ)).tmod 12 % 256)).toNat =
      (nt.to_semitone.toNat + k) % 12 := by
    rw [ht]
    omega
  have htd : (nt.to_semitone + (k : ℤ)).tdiv 12 =
      (((nt.to_semitone.toNat + k) / 12 : ℕ) : ℤ) := by
    rw [Int.tdiv_eq_ediv (by omega) (by norm_num)]
    omega
  have hoct : (((o : ℤ) + (nt.to_semitone + (k : ℤ)).tdiv 12) % 256).toNat =
      (o + (nt.to_semitone.toNat + k) / 12) % 256 := by
    rw [htd]
    omega
  simp only [harg, hoct]
  cases hm : Note.from_semitone ((nt.to_semitone.toNat + k) % 12) with
  | none => rfl
  | some m => rfl

lemma notes_eq_formula (root : NoteWithOctave) (st : ScaleType) :
    Scale.notes ⟨root, st⟩ = st.intervals.filterMap (scale_degree_formula root) := by
  unfold Scale.notes
  have hfun : Scale.note_at_interval ⟨root, st⟩ = scale_degree_formula root :=
    funext (fun k => note_at_interval_eq_formula root st k)
  rw [hfun]

lemma length_filterMap_isSome {α β : Type} (f : α → Option β) (l : List α)
    (h : ∀ a ∈ l, (f a).isSome = true) : (l.filterMap f).length = l.length := by
  induction l with
  | nil => rfl
  | cons a l ih =>
    rw [List.filterMap_cons]
    obtain ⟨b, hb⟩ := Option.isSome_iff_exists.1 (h a (by simp))
    rw [hb]
    simp only [List.length_cons]
    rw [ih (fun x hx => h x (by simp [hx]))]

lemma from_semitone_to_semitone (nt : Note) :
    Note.from_semitone nt.to_semitone.toNat = some nt := by
  cases nt <;> rfl

lemma formula_zero (root : NoteWithOctave) (h : root.octave < 256) :
    scale_degree_formula root 0 = some root := by
  obtain ⟨nt, o⟩ := root
  have h2 : o < 256 := h
  have hc : nt.to_semitone.toNat ≤ 11 := by cases nt <;> decide
  unfold scale_degree_formula
  have e1 : (nt.to_semitone.toNat + 0) % 12 = nt.to_semitone.toNat := by omega
  have e2 : (o + (nt.to_semitone.toNat + 0) / 12) % 256 = o := by omega
  simp only [e1, e2, from_semitone_to_semitone, Option.map_some']

/-- C8 counterexample: the claim says the i-th degree carries octave
root.octave + floor((root class + interval) / 12) with no wrap, but the
`as u8` cast wraps modulo 256.  For root B octave 255 under the major scale
the second degree has octave 0, while the claimed value is 255 + 1 = 256. -/
theorem C8_counterexample :
    (Scale.notes ⟨⟨Note.B, 255⟩, ScaleType.Major⟩).get? 1 = some ⟨Note.CSharp, 0⟩ ∧
    255 + ((Note.B.to_semitone.toNat + 2) / 12) = 256 ∧ (0 : ℕ) ≠ 256 := by
  decide

/-- C8 amended: for every root with a u8 octave and both scale types,
Scale.notes has exactly 7 entries, begins with the root, and its i-th entry
has pitch class (root class + interval) mod 12 with octave
(root.octave + (root class + interval) / 12) mod 256 (the u8 wrap; equal to
the claimed value whenever it is at most 255). -/
theorem C8_scale_degrees : ∀ (root : NoteWithOctave) (st : ScaleType), root.octave < 256 →
    (Scale.notes ⟨root, st⟩).length = 7 ∧
    (Scale.notes ⟨root, st⟩).head? = some root ∧
    Scale.notes ⟨root, st⟩ = st.intervals.filterMap (scale_degree_formula root) ∧
    (st.intervals.all fun k => (scale_degree_formula root k).isSome) = true := by
  intro root st h
  have hsome : ∀ k ∈ st.intervals, (scale_degree_formula root k).isSome = true := by
    intro k hk
    obtain ⟨m, hm⟩ := from_semitone_exists ((root.note.to_semitone.toNat + k) % 12)
    unfold scale_degree_formula
    rw [hm]
    rfl
  have heq := notes_eq_formula root st
  refine ⟨?_, ?_, heq, ?_⟩
  · rw [heq, length_filterMap_isSome _ _ hsome]
    cases st <;> rfl
  · rw [heq]
    obtain ⟨rest, hrest⟩ : ∃ rest, st.intervals = 0 :: rest := by
      cases st
      · exact ⟨_, rfl⟩
      · exact ⟨_, rfl⟩
    rw [hrest, List.filterMap_cons, formula_zero root h]
    rfl
  · exact List.all_eq_true.2 hsome

/-- C8 witness: the amended statement instantiated at the C major scale
rooted at C4. -/
theorem C8_scale_degrees_witness :
    (Scale.notes ⟨⟨Note.C, 4⟩, ScaleType.Major⟩).length = 7 ∧
    (Scale.notes ⟨⟨Note.C, 4⟩, ScaleType.Major⟩).head? = some ⟨Note.C, 4⟩ ∧
    Scale.notes ⟨⟨Note.C, 4⟩, ScaleType.Major⟩ =
      (ScaleType.Major.intervals).filterMap (scale_degree_formula ⟨Note.C, 4⟩) ∧
    ((ScaleType.Major.intervals).all fun k =>
      (scale_degree_formula ⟨Note.C, 4⟩ k).isSome) = true :=
  C8_scale_degrees ⟨Note.C, 4⟩ ScaleType.Major (by decide)

set_option maxHeartbeats 4000000 in
set_option maxRecDepth 10000 in
/-- C10: for every NoteWithOctave with a u8 octave (all values of Fin 256),
rendering it with Display (sharps with a hash, octave in decimal) and parsing
the result back yields Ok of the same value. -/
theorem C10_display_parse_round_trip :
    ∀ (n : Note) (o : Fin 256),
      NoteWithOctave.from_str (NoteWithOctave.display ⟨n, (o : ℕ)⟩) = .ok ⟨n, (o : ℕ)⟩ := by
  decide
